import Mathlib

/-!
Verification of the frame-synthesis core of rainbowbench (src/main.cpp).

The C++ source is shallowly embedded as follows:
- bytes are modelled as `Nat` values (0..255), byte buffers as `List Nat`;
- command-line strings are modelled as `List Char`;
- `size_t` arithmetic is modelled as `Nat` (all quantities involved stay far
  below 2^64, and the C code never subtracts below zero where it matters;
  each such spot is noted at its definition);
- the IEEE-double hue computation of main.cpp lines 128-172 is modelled in
  exact rational arithmetic (`ℚ`), with the C truncating `int` casts modelled
  as `Int.floor` (the operands are nonnegative, where truncation = floor);
- the render loop's interaction with the OS (signal delivery, terminal size
  query, sprintf of the float statistics) is modelled by a per-tick input
  record; everything else follows the source line by line.
-/

namespace RB

/-- `struct RGB { uint8_t r, g, b; }` (main.cpp line 73). Channel values are
kept as `Nat`; the theorems below establish that every value the program
stores is in `[0, 255]`, so the `uint8_t` conversions are value-preserving. -/
structure RGB where
  r : Nat
  g : Nat
  b : Nat
deriving DecidableEq, Repr

/-- `enum ColorMode` (main.cpp line 31). -/
inductive ColorMode where
  | All
  | Foreground
  | Background
  | None
deriving DecidableEq, Repr

/-- The configuration fixed at startup by argument parsing (main.cpp lines
85-126): `num_colors`, `color_mode`, and the UTF-8 bytes of the `-ch=`
override (empty list = `char_override_length == 0`, i.e. no override). -/
structure Config where
  num_colors : Nat
  color_mode : ColorMode
  char_override : List Nat
deriving DecidableEq, Repr

/-- `hh = static_cast<int>(h / 60.0)` for `h = double(i)/double(num_colors)*360.0`
(main.cpp lines 131-132), in exact rational arithmetic. `h ≥ 0`, so the
truncating cast is the floor. -/
def hueSector (num_colors i : Nat) : Int :=
  ⌊((i : ℚ) / (num_colors : ℚ) * 360) / 60⌋

/-- `v = static_cast<int>(256.0 / 60.0 * std::fmod(h, 60.0))` (main.cpp line
133), in exact rational arithmetic; for `h ≥ 0`,
`fmod(h, 60) = h - 60 * floor (h / 60)`. -/
def hueV (num_colors i : Nat) : Int :=
  ⌊256 / 60 * (((i : ℚ) / (num_colors : ℚ) * 360) -
    60 * ⌊((i : ℚ) / (num_colors : ℚ) * 360) / 60⌋)⌋

/-- The `switch (hh % 6)` of main.cpp lines 136-169, as a function of the
sector and of `v`. The `default: std::terminate()` arm is unreachable (a
nonnegative sector mod 6 is in `[0, 6)`) and is mapped to `(0,0,0)`. -/
def sectorFormula (s v : Nat) : RGB :=
  match s with
  | 0 => ⟨255, v, 0⟩
  | 1 => ⟨255 - v, 255, 0⟩
  | 2 => ⟨0, 255, v⟩
  | 3 => ⟨0, 255 - v, 255⟩
  | 4 => ⟨v, 0, 255⟩
  | 5 => ⟨255, 0, 255 - v⟩
  | _ => ⟨0, 0, 0⟩

/-- The HSV-to-RGB ramp computation, main.cpp lines 128-172: the body of the
`for` loop filling `colors[i]`, i.e. the spec's `hue_to_rgb(position,
num_colors)`. The sector and `v` are nonnegative, so the `.toNat` casts into
the `uint8_t` stores are value-preserving (claim C5). -/
def hue_to_rgb (num_colors i : Nat) : RGB :=
  sectorFormula ((hueSector num_colors i % 6).toNat) (hueV num_colors i).toNat

/-- Pure `Nat`-arithmetic form of `hue_to_rgb`; proved equal to it in
`hue_to_rgb_eq_nat` below, and used to make concrete evaluation cheap. -/
def hue_nat (num_colors i : Nat) : RGB :=
  sectorFormula ((6 * i) / num_colors % 6) ((256 * ((6 * i) % num_colors)) / num_colors)

/-- The `colors` array (main.cpp line 128): `std::array<RGB, 1530>` is
zero-initialised and entries `[0, num_colors)` are then filled by the loop. -/
def colorsArr (cfg : Config) (j : Nat) : RGB :=
  if j < cfg.num_colors then hue_to_rgb cfg.num_colors j else ⟨0, 0, 0⟩

/-- ASCII bytes printed by `snprintf` for a `%d` of a nonnegative value. -/
def dec (n : Nat) : List Nat :=
  (Nat.toDigits 10 n).map Char.toNat

/-- `fg_offset = std::max<size_t>(1, (num_colors + 5) / 10)` (main.cpp 183). -/
def fg_offset (cfg : Config) : Nat :=
  max 1 ((cfg.num_colors + 5) / 10)

/-- The SGR escape bytes `snprintf` produces for one cell (main.cpp 191-211).
Byte values are the ASCII codes of the format strings:
`27 91` = ESC `[`; `52 56 59 50 59` = `48;2;`; `51 56 59 50 59` = `38;2;`;
`59` = `;`; `109` = `m`. In `ColorMode_None` the switch leaves `length == 0`
so no bytes are produced. -/
def sgrBytes (cfg : Config) (i : Nat) : List Nat :=
  match cfg.color_mode with
  | ColorMode.All =>
      let bg := colorsArr cfg (i % cfg.num_colors)
      let fg := colorsArr cfg ((i + fg_offset cfg) % cfg.num_colors)
      [27, 91, 52, 56, 59, 50, 59] ++ dec bg.r ++ [59] ++ dec bg.g ++ [59] ++ dec bg.b ++
        [59, 51, 56, 59, 50, 59] ++ dec fg.r ++ [59] ++ dec fg.g ++ [59] ++ dec fg.b ++ [109]
  | ColorMode.Foreground =>
      let fg := colorsArr cfg (i % cfg.num_colors)
      [27, 91, 51, 56, 59, 50, 59] ++ dec fg.r ++ [59] ++ dec fg.g ++ [59] ++ dec fg.b ++ [109]
  | ColorMode.Background =>
      let bg := colorsArr cfg (i % cfg.num_colors)
      [27, 91, 52, 56, 59, 50, 59] ++ dec bg.r ++ [59] ++ dec bg.g ++ [59] ++ dec bg.b ++ [109]
  | ColorMode.None => []

/-- The glyph bytes appended after the SGR bytes (main.cpp 216-220):
the `-ch=` override if one was set, else `'!' + i % 94` (`'!'` = 33). -/
def glyphBytes (cfg : Config) (i : Nat) : List Nat :=
  if cfg.char_override = [] then [33 + i % 94] else cfg.char_override

/-- One encoded cell: the loop body of `rebuild_rainbow` (main.cpp 186-221)
appends exactly these bytes for iteration `i`. This is the spec's
`encode_cell` applied at ramp position `i`. -/
def encode_cell (cfg : Config) (i : Nat) : List Nat :=
  sgrBytes cfg i ++ glyphBytes cfg i

/-- The two vectors captured by the `rebuild_rainbow` lambda (main.cpp
177-178): `std::string rainbow` and `std::vector<size_t> rainbow_indices`. -/
structure Ramp where
  rainbow : List Nat
  rainbow_indices : List Nat
deriving DecidableEq, Repr

/-- The initial (empty) state of the two vectors. -/
def emptyRamp : Ramp := ⟨[], []⟩

/-- `rebuild_rainbow` (main.cpp 180-222): for `i` in
`[0, num_colors + screen_cols)` it pushes the current `rainbow.size()` onto
`rainbow_indices` and then appends the encoded cell `i` to `rainbow`.
NOTE: exactly as in the source, the lambda does NOT clear the two vectors
first; a second invocation appends to the previous contents. (The dead
`screen_area` assignment on line 181 is omitted: that variable is never
read anywhere in the program.) -/
def rebuild_rainbow (cfg : Config) (screen_cols : Nat) (st : Ramp) : Ramp :=
  (List.range (cfg.num_colors + screen_cols)).foldl
    (fun s i => ⟨s.rainbow ++ encode_cell cfg i, s.rainbow_indices ++ [s.rainbow.length]⟩) st

/-- Concatenation of the first `n` independently encoded cells; the reference
value that `rebuild_rainbow` is proved to produce. -/
def cellsConcat (cfg : Config) : Nat → List Nat
  | 0 => []
  | n + 1 => cellsConcat cfg n ++ encode_cell cfg n

/-- Concatenation of the `w` independently encoded cells `p, p+1, …, p+w-1`:
the spec's "encoding cells p, …, p+w-1 independently and concatenating". -/
def cellsSeg (cfg : Config) (p : Nat) : Nat → List Nat
  | 0 => []
  | w + 1 => cellsSeg cfg p w ++ encode_cell cfg (p + w)

/-- The offsets `rebuild_rainbow` pushes when it starts from a buffer of
`base` bytes: entry `j` is `base` plus the length of the first `j` cells. -/
def offsetsFrom (cfg : Config) (base : Nat) : Nat → List Nat
  | 0 => []
  | n + 1 => offsetsFrom cfg base n ++ [base + (cellsConcat cfg n).length]

/-- Slice extraction as done by the frame-assembly code (main.cpp 310-324)
and described by the spec's `slice(ramp_position, width)`:
`buffer[index[p] .. index[p+w]]`. Out-of-range index reads (which would be
undefined behaviour in the C++) are modelled with default `0`; the safety
claim C10 shows all reads the program performs are in range. -/
def ramp_slice (ramp : Ramp) (p w : Nat) : List Nat :=
  let beg := ramp.rainbow_indices.getD p 0
  let e := ramp.rainbow_indices.getD (p + w) 0
  (ramp.rainbow.drop beg).take (e - beg)

/-- Bytes of `"\x1b[?2026h" "\x1b[H" "\x1b[39;49m"` (main.cpp 303-307):
begin synchronized update, cursor home, FG/BG color reset. -/
def frameHead : List Nat :=
  [27, 91, 63, 50, 48, 50, 54, 104] ++ [27, 91, 72] ++ [27, 91, 51, 57, 59, 52, 57, 109]

/-- Bytes of `"\x1b[?2026l"` (main.cpp 326-328): end synchronized update. -/
def frameTail : List Nat :=
  [27, 91, 63, 50, 48, 50, 54, 108]

/-- Bytes of the shutdown write (main.cpp 348-352): end synchronized update,
show cursor, disable the alternate screen buffer. -/
def teardownBytes : List Nat :=
  [27, 91, 63, 50, 48, 50, 54, 108] ++ [27, 91, 63, 50, 53, 104] ++ [27, 91, 63, 49, 48, 52, 57, 108]

/-- Bytes of the startup write (main.cpp 264-267): enable the alternate
screen buffer, hide cursor. -/
def startupBytes : List Nat :=
  [27, 91, 63, 49, 48, 52, 57, 104] ++ [27, 91, 63, 50, 53, 108]

/-- Concatenation of `g` over a list (helper for stating what the row loop
of the frame assembly appends). -/
def joinMap (g : Nat → List Nat) : List Nat → List Nat
  | [] => []
  | y :: ys => g y ++ joinMap g ys

/-- The body of the row loop (main.cpp 318-324): append to `o` the slice for
row `y`, at ramp position `(i + y * 2) % num_colors`, width `screen_cols`. -/
def rowAppend (ramp : Ramp) (num_colors screen_cols i : Nat) (o : List Nat) (y : Nat) :
    List Nat :=
  let idx := (i + y * 2) % num_colors
  let beg := ramp.rainbow_indices.getD idx 0
  let e := ramp.rainbow_indices.getD (idx + screen_cols) 0
  o ++ (ramp.rainbow.drop beg).take (e - beg)

/-- One frame's bytes: the `output` string built in main.cpp 299-328 for
frame index `i`. `stats` is the byte string `sprintf` put into `statsBuffer`
(its float formatting is outside the model; the claims only depend on its
length). Mirrors the source: `statsLength = min(statsLength, screen_cols)`,
header, truncated stats line, first-row slice at `(i + statsLength) %
num_colors` of width `screen_cols - statsLength`, then for `y` in
`[1, screen_rows)` a slice (`rowAppend`) at `(i + y*2) % num_colors` of
width `screen_cols`, then the frame tail. -/
def assemble_frame (ramp : Ramp) (num_colors screen_cols screen_rows i : Nat)
    (stats : List Nat) : List Nat :=
  let statsLength := min stats.length screen_cols
  let out := frameHead ++ stats.take statsLength
  let out := out ++
    (let idx := (i + statsLength) % num_colors
     let beg := ramp.rainbow_indices.getD idx 0
     let e := ramp.rainbow_indices.getD (idx + screen_cols - statsLength) 0
     (ramp.rainbow.drop beg).take (e - beg))
  let out := (List.range' 1 (screen_rows - 1)).foldl
    (rowAppend ramp num_colors screen_cols i) out
  out ++ frameTail

/-- `SignalState_Sigint = 0x1` (main.cpp 27). -/
def SignalState_Sigint : Nat := 1

/-- `SignalState_Sigwinch = 0x2` (main.cpp 28). -/
def SignalState_Sigwinch : Nat := 2

/-- The mutable state of the render loop (main.cpp 174-178, 272, 278):
the pending signal flag set (`signal_state`), the current dimensions, the
two ramp vectors, and the frame index `i` of the `for` loop. -/
structure LoopState where
  pending : Nat
  screen_cols : Nat
  screen_rows : Nat
  ramp : Ramp
  i : Nat
deriving DecidableEq, Repr

/-- The out-of-band inputs one loop iteration consumes: the flag bits the
signal handlers have OR-ed into `signal_state` since the previous
`exchange` (a subset of `Sigint ||| Sigwinch`, so `< 4`), the dimensions
the terminal reports if queried this tick, and the stats bytes `sprintf`
produced this tick. -/
structure TickInput where
  delivered : Nat
  dims : Nat × Nat
  stats : List Nat
deriving DecidableEq, Repr

/-- The program state when the loop is first entered:
`signal_state{SignalState_Sigwinch}` (main.cpp 45) — the resize bit starts
set — with zero dimensions, empty ramp vectors and frame index 0. -/
def initialState : LoopState :=
  ⟨SignalState_Sigwinch, 0, 0, emptyRamp, 0⟩

/-- One iteration of the render loop (main.cpp 278-333), without the
throughput-sampling tail (modelled separately as `sample_tick`):
`signal_state.exchange(0)` is the OR of the carried `pending` bits and the
newly `delivered` bits; if the Sigint bit is set the loop breaks (`none`);
if the Sigwinch bit is set the dimensions are re-queried and
`rebuild_rainbow` runs; then one frame is assembled. Returns the state the
frame is assembled in, the state carried to the next iteration (pending
cleared, `i` incremented), and the frame bytes. -/
def tickStep (cfg : Config) (st : LoopState) (inp : TickInput) :
    Option (LoopState × LoopState × List Nat) :=
  let state := st.pending ||| inp.delivered
  if state &&& SignalState_Sigint ≠ 0 then
    none
  else
    let stA : LoopState :=
      if state &&& SignalState_Sigwinch ≠ 0 then
        ⟨0, inp.dims.1, inp.dims.2, rebuild_rainbow cfg inp.dims.1 st.ramp, st.i⟩
      else
        ⟨0, st.screen_cols, st.screen_rows, st.ramp, st.i⟩
    let out := assemble_frame stA.ramp cfg.num_colors stA.screen_cols stA.screen_rows stA.i inp.stats
    some (stA, ⟨0, stA.screen_cols, stA.screen_rows, stA.ramp, stA.i + 1⟩, out)

/-- The sequence of `write_console` payloads the loop produces on the given
per-tick inputs: one frame per completed iteration, and the fixed teardown
bytes once the Sigint bit is observed. If the input horizon ends first, the
program is still running and has emitted no teardown. -/
def runLoop (cfg : Config) : LoopState → List TickInput → List (List Nat)
  | _, [] => []
  | st, inp :: rest =>
    match tickStep cfg st inp with
    | none => [teardownBytes]
    | some (_, st', out) => out :: runLoop cfg st' rest

/-- The per-tick states in which frames are assembled (after the resize
handling of that tick), for the same inputs as `runLoop`. -/
def loopStates (cfg : Config) : LoopState → List TickInput → List LoopState
  | _, [] => []
  | st, inp :: rest =>
    match tickStep cfg st inp with
    | none => []
    | some (stA, st', _) => stA :: loopStates cfg st' rest

/-- The index positions into `rainbow_indices` that assembling a frame reads
(main.cpp 310-324), for stats length `sl` (already clamped): the first-row
pair and, for each `y` in `[1, rows)`, the row pair. -/
def accessedIdx (num_colors screen_cols screen_rows i sl : Nat) : List Nat :=
  [(i + sl) % num_colors, (i + sl) % num_colors + screen_cols - sl] ++
    joinMap (fun y => [(i + y * 2) % num_colors, (i + y * 2) % num_colors + screen_cols])
      (List.range' 1 (screen_rows - 1))

/-- The invariant making every frame-assembly read in-bounds: the index
holds at least `num_colors + screen_cols` entries for the current
`screen_cols`, and every stored offset is at most the buffer length. -/
def RampOk (cfg : Config) (st : LoopState) : Prop :=
  cfg.num_colors + st.screen_cols ≤ st.ramp.rainbow_indices.length ∧
    ∀ o ∈ st.ramp.rainbow_indices, o ≤ st.ramp.rainbow.length

/-- The throughput-sampler state (main.cpp 269-273): the two published
samples (`mbps`, `frames`), the two accumulators (`written`, `frame`) and
the reference timestamp, in nanoseconds of `steady_clock`. The samples are
rationals: the C floats are modelled in exact arithmetic. -/
structure SamplerState where
  mbps : ℚ
  frames : ℚ
  written : Nat
  frame : Nat
  reference : Nat
deriving DecidableEq, Repr

/-- The sampling tail of each loop iteration (main.cpp 335-344): if at least
one second elapsed since `reference`, publish `written / seconds / 1e6` and
`frame / seconds`, reset both accumulators and set `reference = now`;
otherwise leave everything unchanged. -/
def sample_tick (st : SamplerState) (now : Nat) : SamplerState :=
  let duration := now - st.reference
  if 1000000000 ≤ duration then
    let durationCount : ℚ := (duration : ℚ) / 1000000000
    ⟨(st.written : ℚ) / durationCount / 1000000, (st.frame : ℚ) / durationCount,
      0, 0, now⟩
  else
    st

/-- `strtoul(..., 16)` digit value of one character. -/
def hexDigit (c : Char) : Option Nat :=
  if '0' ≤ c ∧ c ≤ '9' then some (c.toNat - 48)
  else if 'a' ≤ c ∧ c ≤ 'f' then some (c.toNat - 87)
  else if 'A' ≤ c ∧ c ≤ 'F' then some (c.toNat - 55)
  else none

/-- `strtoul(s, &endptr, 16)` on the embedded argument strings: the value of
the longest leading run of hex digits, `0` if there is none. (The leading
whitespace / sign / `0x`-prefix tolerance of `strtoul` is not modelled; no
argument exercised below uses it.) -/
def hexVal : List Char → Nat :=
  go 0
where
  go (acc : Nat) : List Char → Nat
    | [] => acc
    | c :: cs =>
      match hexDigit c with
      | some d => go (16 * acc + d) cs
      | none => acc

/-- `strtoull(s, &endptr, 10)` on the embedded argument strings: the value of
the longest leading run of decimal digits, `0` if there is none (same
simplification as `hexVal`). -/
def decVal : List Char → Nat :=
  go 0
where
  go (acc : Nat) : List Char → Nat
    | [] => acc
    | c :: cs =>
      if '0' ≤ c ∧ c ≤ '9' then go (10 * acc + (c.toNat - 48)) cs else acc

/-- Whether an argument starts with `-ch=` (`strncmp(arg, "-ch=", 4) == 0`,
main.cpp line 99). -/
def chArgP : List Char → Bool
  | '-' :: 'c' :: 'h' :: '=' :: _ => true
  | _ => false

/-- Whether an argument is one of the four recognised flags, i.e. does not
fall into the final `else` of the parsing loop (main.cpp 93-121). -/
def isFlagArg (s : List Char) : Prop :=
  s = ['-', 'f', 'g'] ∨ s = ['-', 'b', 'g'] ∨ s = ['-', 'n', 'g'] ∨ chArgP s = true

instance (s : List Char) : Decidable (isFlagArg s) := by
  unfold isFlagArg
  infer_instance

/-- The UTF-8 encoding branches of the `-ch=` handler (main.cpp 102-120):
code points `< 0x80 / < 0x800 / < 0x10000 / ≤ 0x110000` get 1-4 bytes; any
larger value leaves the override unchanged (none of the branches fire). -/
def chOverride (codepoint : Nat) (old : List Nat) : List Nat :=
  if codepoint < 0x80 then [codepoint]
  else if codepoint < 0x800 then
    [0xc0 ||| (codepoint >>> 6), 0x80 ||| (codepoint &&& 0x3f)]
  else if codepoint < 0x10000 then
    [0xe0 ||| (codepoint >>> 12), 0x80 ||| ((codepoint >>> 6) &&& 0x3f),
      0x80 ||| (codepoint &&& 0x3f)]
  else if codepoint ≤ 0x110000 then
    [0xf0 ||| (codepoint >>> 18), 0x80 ||| ((codepoint >>> 12) &&& 0x3f),
      0x80 ||| ((codepoint >>> 6) &&& 0x3f), 0x80 ||| (codepoint &&& 0x3f)]
  else old

/-- One step of the argument loop (main.cpp 91-126), updating the startup
configuration with one argument. The final `else` is `strtoull` followed by
`std::clamp<size_t>(num_colors, 1, max_rainbow_colors)`. -/
def parse_arg (cfg : Config) (arg : List Char) : Config :=
  if arg = ['-', 'f', 'g'] then ⟨cfg.num_colors, ColorMode.Foreground, cfg.char_override⟩
  else if arg = ['-', 'b', 'g'] then ⟨cfg.num_colors, ColorMode.Background, cfg.char_override⟩
  else if arg = ['-', 'n', 'g'] then ⟨cfg.num_colors, ColorMode.None, cfg.char_override⟩
  else if chArgP arg then
    ⟨cfg.num_colors, cfg.color_mode, chOverride (hexVal (arg.drop 4)) cfg.char_override⟩
  else
    ⟨min (max (decVal arg) 1) 1530, cfg.color_mode, cfg.char_override⟩

/-- Command-line handling (main.cpp 77-126). `args` are the user arguments
(everything after `argv[0]`, so `argc = args.length + 1`). The program
prints the usage text and exits with code 1 — `Except.error ()` — iff
`argc < 1 || argc > 3`; since `argc ≥ 1` always, that is `args.length > 2`.
Otherwise every argument is folded into the startup configuration
(defaults: `num_colors = 1530`, `ColorMode_All`, no override) and the
benchmark starts. -/
def parse_args (args : List (List Char)) : Except Unit Config :=
  if 2 < args.length then Except.error ()
  else Except.ok (args.foldl parse_arg ⟨1530, ColorMode.All, []⟩)

/-! ## Theorems -/

theorem floor_div_natCast (a b : Nat) : ⌊((a : ℚ)) / (b : ℚ)⌋ = (a / b : Nat) := by
  rw [← Int.natCast_floor_eq_floor (by positivity), Nat.floor_div_eq_div]

theorem h_div_60 (N i : Nat) (hN : 0 < N) :
    ((i : ℚ) / (N : ℚ) * 360) / 60 = ((6 * i : Nat) : ℚ) / (N : ℚ) := by
  have hNe : (N : ℚ) ≠ 0 := Nat.cast_ne_zero.mpr hN.ne'
  push_cast
  field_simp
  ring

theorem hueSector_eq (N i : Nat) (hN : 0 < N) :
    hueSector N i = ((6 * i) / N : Nat) := by
  unfold hueSector
  rw [h_div_60 N i hN, floor_div_natCast]

theorem hueV_eq (N i : Nat) (hN : 0 < N) :
    hueV N i = ((256 * ((6 * i) % N)) / N : Nat) := by
  have hNe : (N : ℚ) ≠ 0 := Nat.cast_ne_zero.mpr hN.ne'
  have hqr : ((6 * i : Nat) : ℚ)
      = (N : ℚ) * (((6 * i) / N : Nat) : ℚ) + (((6 * i) % N : Nat) : ℚ) := by
    exact_mod_cast (Nat.div_add_mod (6 * i) N).symm
  unfold hueV
  rw [h_div_60 N i hN, floor_div_natCast]
  have expand : (256 : ℚ) / 60 *
        (((i : ℚ) / (N : ℚ) * 360) - 60 * ((((6 * i) / N : Nat) : ℤ) : ℚ))
      = 256 * ((6 * i : Nat) : ℚ) / (N : ℚ) - 256 * (((6 * i) / N : Nat) : ℚ) := by
    rw [Int.cast_natCast]
    have h6i : ((6 * i : Nat) : ℚ) = 6 * (i : ℚ) := by push_cast; ring
    rw [h6i]
    ring
  rw [expand, hqr]
  have key : 256 * ((N : ℚ) * (((6 * i) / N : Nat) : ℚ) + (((6 * i) % N : Nat) : ℚ)) / (N : ℚ)
        - 256 * (((6 * i) / N : Nat) : ℚ)
      = ((256 * ((6 * i) % N) : Nat) : ℚ) / (N : ℚ) := by
    push_cast
    field_simp
    ring
  rw [key, floor_div_natCast]

theorem int_mod6_toNat (a : Nat) : (((a : ℤ)) % 6).toNat = a % 6 := by
  omega

theorem hue_to_rgb_eq_nat (N i : Nat) (hN : 0 < N) : hue_to_rgb N i = hue_nat N i := by
  unfold hue_to_rgb hue_nat
  rw [hueSector_eq N i hN, hueV_eq N i hN, int_mod6_toNat, Int.toNat_natCast]

theorem hueV_nat_lt (N i : Nat) (hN : 0 < N) : (256 * ((6 * i) % N)) / N < 256 := by
  rw [Nat.div_lt_iff_lt_mul hN]
  have hm : (6 * i) % N < N := Nat.mod_lt _ hN
  omega

theorem sectorFormula_channels (s v : Nat) (hv : v ≤ 255) :
    (sectorFormula s v).r ≤ 255 ∧ (sectorFormula s v).g ≤ 255 ∧ (sectorFormula s v).b ≤ 255 := by
  rcases s with _ | _ | _ | _ | _ | _ | s <;> simp [sectorFormula] <;> omega

theorem hue_nat_channels (N i : Nat) (hN : 0 < N) :
    (hue_nat N i).r ≤ 255 ∧ (hue_nat N i).g ≤ 255 ∧ (hue_nat N i).b ≤ 255 := by
  have hv : (256 * ((6 * i) % N)) / N < 256 := hueV_nat_lt N i hN
  exact sectorFormula_channels _ _ (by omega)

set_option maxRecDepth 8000 in
theorem hue_nat_adjacent_low :
    ∀ j, j < 765 → hue_nat 1530 j ≠ hue_nat 1530 ((j + 1) % 1530) := by
  decide

set_option maxRecDepth 8000 in
theorem hue_nat_adjacent_high :
    ∀ j, j < 765 → hue_nat 1530 (765 + j) ≠ hue_nat 1530 ((765 + j + 1) % 1530) := by
  decide

theorem hue_nat_adjacent :
    ∀ i, i < 1530 → hue_nat 1530 i ≠ hue_nat 1530 ((i + 1) % 1530) := by
  intro i hi
  rcases Nat.lt_or_ge i 765 with h | h
  · exact hue_nat_adjacent_low i h
  · have := hue_nat_adjacent_high (i - 765) (by omega)
    rwa [show 765 + (i - 765) = i from by omega] at this

/-- C5: for every `num_colors ∈ [1, 1530]` and every `position ∈
[0, num_colors)`, the hue computation (`h = position/num_colors*360`,
`sector = ⌊h/60⌋ % 6`, `v = ⌊256/60 * (h mod 60)⌋`, then the six fixed
sector formulas — these ARE the definitions of `hueSector`, `hueV` and
`hue_to_rgb`) yields `v ∈ [0, 255]` and every channel in `[0, 255]`; and in
a 1530-color ramp no two (cyclically) adjacent positions give the same
color. -/
theorem claim_C5 :
    (∀ num_colors, 1 ≤ num_colors → num_colors ≤ 1530 → ∀ position, position < num_colors →
      0 ≤ hueV num_colors position ∧ hueV num_colors position ≤ 255 ∧
      (hue_to_rgb num_colors position).r ≤ 255 ∧
      (hue_to_rgb num_colors position).g ≤ 255 ∧
      (hue_to_rgb num_colors position).b ≤ 255) ∧
    (∀ position, position < 1530 →
      hue_to_rgb 1530 position ≠ hue_to_rgb 1530 ((position + 1) % 1530)) := by
  constructor
  · intro N h1 _ i _
    have hN : 0 < N := h1
    have hveq := hueV_eq N i hN
    have hlt := hueV_nat_lt N i hN
    have hch := hue_nat_channels N i hN
    refine ⟨by rw [hveq]; positivity, by rw [hveq]; exact_mod_cast Nat.le_of_lt_succ hlt, ?_, ?_, ?_⟩
    · rw [hue_to_rgb_eq_nat N i hN]; exact hch.1
    · rw [hue_to_rgb_eq_nat N i hN]; exact hch.2.1
    · rw [hue_to_rgb_eq_nat N i hN]; exact hch.2.2
  · intro i hi
    rw [hue_to_rgb_eq_nat 1530 i (by norm_num), hue_to_rgb_eq_nat 1530 _ (by norm_num)]
    exact hue_nat_adjacent i hi

/-- Witness for C5 at `num_colors = 6`, `position = 1` and at the adjacent
pair `(0, 1)` of the 1530-color ramp. -/
theorem claim_C5_witness :
    (0 ≤ hueV 6 1 ∧ hueV 6 1 ≤ 255 ∧ (hue_to_rgb 6 1).r ≤ 255 ∧
      (hue_to_rgb 6 1).g ≤ 255 ∧ (hue_to_rgb 6 1).b ≤ 255) ∧
    hue_to_rgb 1530 0 ≠ hue_to_rgb 1530 ((0 + 1) % 1530) :=
  ⟨claim_C5.1 6 (by norm_num) (by norm_num) 1 (by norm_num), claim_C5.2 0 (by norm_num)⟩

/-! ### List helpers -/

theorem getD_append_left (A B : List Nat) (i : Nat) (h : i < A.length) :
    (A ++ B).getD i 0 = A.getD i 0 := by
  simp [List.getD, List.getElem?_append_left h]

theorem getD_append_right (A B : List Nat) (i : Nat) :
    (A ++ B).getD (A.length + i) 0 = B.getD i 0 := by
  induction A with
  | nil => simp
  | cons a as ih =>
    have h : (a :: as).length + i = (as.length + i) + 1 := by simp; omega
    rw [List.cons_append, h, List.getD_cons_succ, ih]

theorem joinMap_mem (g : Nat → List Nat) (l : List Nat) (a : Nat)
    (h : a ∈ joinMap g l) : ∃ y ∈ l, a ∈ g y := by
  induction l with
  | nil => simp [joinMap] at h
  | cons y ys ih =>
    simp only [joinMap, List.mem_append] at h
    rcases h with h | h
    · exact ⟨y, by simp, h⟩
    · obtain ⟨z, hz, ha⟩ := ih h
      exact ⟨z, by simp [hz], ha⟩

theorem joinMap_congr (g₁ g₂ : Nat → List Nat) (l : List Nat)
    (h : ∀ y ∈ l, g₁ y = g₂ y) : joinMap g₁ l = joinMap g₂ l := by
  induction l with
  | nil => rfl
  | cons y ys ih =>
    simp only [joinMap]
    rw [h y (by simp), ih (fun z hz => h z (by simp [hz]))]

theorem foldl_append_extends {α : Type} (f : List Nat → α → List Nat)
    (hf : ∀ o y, ∃ t, f o y = o ++ t) (l : List α) (init : List Nat) :
    ∃ t, l.foldl f init = init ++ t := by
  induction l generalizing init with
  | nil => exact ⟨[], by simp⟩
  | cons y ys ih =>
    obtain ⟨t1, ht1⟩ := hf init y
    obtain ⟨t2, ht2⟩ := ih (init ++ t1)
    exact ⟨t1 ++ t2, by simp [List.foldl_cons, ht1, ht2]⟩

theorem foldl_append_join (f : List Nat → Nat → List Nat)
    (hf : ∀ o y, f o y = o ++ f [] y) (l : List Nat) (init : List Nat) :
    l.foldl f init = init ++ joinMap (fun y => f [] y) l := by
  induction l generalizing init with
  | nil => simp [joinMap]
  | cons y ys ih =>
    simp only [List.foldl_cons, joinMap]
    rw [hf init y, ih (init ++ f [] y), List.append_assoc]

/-! ### Rebuild: buffer and index structure -/

theorem rebuild_fold (cfg : Config) (n : Nat) (st : Ramp) :
    (List.range n).foldl
      (fun s i => ⟨s.rainbow ++ encode_cell cfg i, s.rainbow_indices ++ [s.rainbow.length]⟩) st
      = ⟨st.rainbow ++ cellsConcat cfg n,
          st.rainbow_indices ++ offsetsFrom cfg st.rainbow.length n⟩ := by
  induction n with
  | zero => simp [cellsConcat, offsetsFrom]
  | succ n ih =>
    rw [List.range_succ, List.foldl_append, ih]
    simp [cellsConcat, offsetsFrom, List.length_append]

theorem rebuild_rainbow_def (cfg : Config) (screen_cols : Nat) (st : Ramp) :
    rebuild_rainbow cfg screen_cols st
      = ⟨st.rainbow ++ cellsConcat cfg (cfg.num_colors + screen_cols),
          st.rainbow_indices ++ offsetsFrom cfg st.rainbow.length (cfg.num_colors + screen_cols)⟩ :=
  rebuild_fold cfg _ st

theorem offsetsFrom_length (cfg : Config) (base n : Nat) :
    (offsetsFrom cfg base n).length = n := by
  induction n with
  | zero => rfl
  | succ n ih => simp [offsetsFrom, ih]

theorem offsetsFrom_getD (cfg : Config) (base n j : Nat) (h : j < n) :
    (offsetsFrom cfg base n).getD j 0 = base + (cellsConcat cfg j).length := by
  induction n with
  | zero => omega
  | succ n ih =>
    rcases Nat.lt_or_ge j n with h' | h'
    · rw [offsetsFrom, getD_append_left _ _ _ (by rw [offsetsFrom_length]; exact h')]
      exact ih h'
    · have hj : j = n := by omega
      subst hj
      have := getD_append_right (offsetsFrom cfg base j) [base + (cellsConcat cfg j).length] 0
      rw [offsetsFrom_length] at this
      simpa [offsetsFrom] using this

theorem offsetsFrom_mem (cfg : Config) (base n o : Nat)
    (h : o ∈ offsetsFrom cfg base n) : ∃ j, j < n ∧ o = base + (cellsConcat cfg j).length := by
  induction n with
  | zero => simp [offsetsFrom] at h
  | succ n ih =>
    simp only [offsetsFrom, List.mem_append, List.mem_singleton] at h
    rcases h with h | h
    · obtain ⟨j, hj, ho⟩ := ih h
      exact ⟨j, by omega, ho⟩
    · exact ⟨n, by omega, h⟩

theorem encode_cell_length_pos (cfg : Config) (i : Nat) :
    0 < (encode_cell cfg i).length := by
  unfold encode_cell glyphBytes
  by_cases h : cfg.char_override = []
  · simp [h]
  · have : 0 < cfg.char_override.length := List.length_pos.mpr h
    simp [h]
    omega

theorem cellsConcat_length_mono (cfg : Config) {m n : Nat} (h : m ≤ n) :
    (cellsConcat cfg m).length ≤ (cellsConcat cfg n).length := by
  induction n with
  | zero => simp_all
  | succ n ih =>
    rcases Nat.lt_or_ge m (n + 1) with h' | h'
    · have := ih (by omega)
      simp only [cellsConcat, List.length_append]
      omega
    · have hm : m = n + 1 := by omega
      simp [hm]

theorem cellsConcat_length_lt (cfg : Config) (n : Nat) :
    (cellsConcat cfg n).length < (cellsConcat cfg (n + 1)).length := by
  have := encode_cell_length_pos cfg n
  simp only [cellsConcat, List.length_append]
  omega

theorem cellsConcat_split (cfg : Config) (p w : Nat) :
    cellsConcat cfg (p + w) = cellsConcat cfg p ++ cellsSeg cfg p w := by
  induction w with
  | zero => simp [cellsSeg]
  | succ w ih =>
    have : p + (w + 1) = (p + w) + 1 := by omega
    rw [this]
    simp only [cellsConcat, cellsSeg, ih, List.append_assoc]

/-- C1: after a (startup) rebuild with parameters `(num_colors, screen_cols,
mode, glyph)`, for every ramp position `p < num_colors` and width
`w ≤ screen_cols`, the byte range `buffer[index[p] .. index[p+w]]` equals
the concatenation `cellsSeg` of the independently encoded cells
`p, p+1, …, p+w-1` (each encoded by `encode_cell`, which colors position `i`
from `hue_to_rgb(i mod num_colors)`): slices need no re-encoding and no
wraparound logic. -/
theorem claim_C1 (cfg : Config) (screen_cols p w : Nat)
    (hp : p < cfg.num_colors) (hw : w ≤ screen_cols) :
    ramp_slice (rebuild_rainbow cfg screen_cols emptyRamp) p w = cellsSeg cfg p w := by
  have hn : p + w < cfg.num_colors + screen_cols := by omega
  rw [rebuild_rainbow_def]
  unfold ramp_slice emptyRamp
  simp only [List.nil_append, List.length_nil]
  rw [offsetsFrom_getD cfg 0 _ p (by omega), offsetsFrom_getD cfg 0 _ (p + w) hn]
  simp only [Nat.zero_add]
  have h1 : cellsConcat cfg (cfg.num_colors + screen_cols)
      = cellsConcat cfg p ++ (cellsSeg cfg p w
          ++ cellsSeg cfg (p + w) (cfg.num_colors + screen_cols - (p + w))) := by
    rw [← List.append_assoc, ← cellsConcat_split, ← cellsConcat_split]
    congr 1
    omega
  rw [h1, List.drop_left]
  have h2 : (cellsConcat cfg (p + w)).length - (cellsConcat cfg p).length
      = (cellsSeg cfg p w).length := by
    rw [cellsConcat_split cfg p w, List.length_append]
    omega
  rw [h2, List.take_left]

/-- Witness for C1: `num_colors = 2`, foreground mode, `screen_cols = 3`,
slice at `p = 1` of width `w = 2`. -/
theorem claim_C1_witness :
    ramp_slice (rebuild_rainbow ⟨2, ColorMode.Foreground, []⟩ 3 emptyRamp) 1 2
      = cellsSeg ⟨2, ColorMode.Foreground, []⟩ 1 2 :=
  claim_C1 ⟨2, ColorMode.Foreground, []⟩ 3 1 2 (by norm_num) (by norm_num)

theorem rebuild_indices_length (cfg : Config) (screen_cols : Nat) (st : Ramp) :
    (rebuild_rainbow cfg screen_cols st).rainbow_indices.length
      = st.rainbow_indices.length + (cfg.num_colors + screen_cols) := by
  rw [rebuild_rainbow_def]
  simp [offsetsFrom_length]

/-- Counterexample to C3 as stated: a rebuild with `num_colors = 6`,
`screen_cols = 10` produces an index of 16 entries, not `6 + 10 + 1 = 17`:
no trailing sentinel is appended. -/
theorem claim_C3_counterexample :
    (rebuild_rainbow ⟨6, ColorMode.None, []⟩ 10 emptyRamp).rainbow_indices.length
      ≠ 6 + 10 + 1 := by
  rw [rebuild_indices_length]
  simp [emptyRamp]

/-- C3 (amended): a single rebuild from the empty state with parameters
`(num_colors, screen_cols)` produces an index with exactly
`num_colors + screen_cols` entries (no `+1` sentinel); `index[0] = 0`; the
sequence is strictly increasing; and every entry is a cell start strictly
below the final buffer length (in particular no entry equals the final
buffer length, i.e. no sentinel is present). -/
theorem claim_C3_amended (cfg : Config) (screen_cols : Nat)
    (hpos : 0 < cfg.num_colors + screen_cols) :
    (rebuild_rainbow cfg screen_cols emptyRamp).rainbow_indices.length
        = cfg.num_colors + screen_cols ∧
    (rebuild_rainbow cfg screen_cols emptyRamp).rainbow_indices.getD 0 0 = 0 ∧
    (∀ j, j + 1 < cfg.num_colors + screen_cols →
      (rebuild_rainbow cfg screen_cols emptyRamp).rainbow_indices.getD j 0
        < (rebuild_rainbow cfg screen_cols emptyRamp).rainbow_indices.getD (j + 1) 0) ∧
    (∀ o ∈ (rebuild_rainbow cfg screen_cols emptyRamp).rainbow_indices,
      o < (rebuild_rainbow cfg screen_cols emptyRamp).rainbow.length) := by
  rw [rebuild_rainbow_def]
  unfold emptyRamp
  simp only [List.nil_append, List.length_nil]
  refine ⟨offsetsFrom_length cfg 0 _, ?_, ?_, ?_⟩
  · rw [offsetsFrom_getD _ _ _ _ hpos]
    simp [cellsConcat]
  · intro j hj
    rw [offsetsFrom_getD _ _ _ _ (by omega), offsetsFrom_getD _ _ _ _ hj]
    have := cellsConcat_length_lt cfg j
    omega
  · intro o ho
    obtain ⟨j, hj, rfl⟩ := offsetsFrom_mem cfg 0 _ o ho
    have h1 := cellsConcat_length_lt cfg j
    have h2 := cellsConcat_length_mono cfg (show j + 1 ≤ cfg.num_colors + screen_cols by omega)
    omega

/-- Witness for C3 (amended) at `num_colors = 2`, `screen_cols = 1`. -/
theorem claim_C3_amended_witness :
    (rebuild_rainbow ⟨2, ColorMode.None, []⟩ 1 emptyRamp).rainbow_indices.length = 2 + 1 ∧
    (rebuild_rainbow ⟨2, ColorMode.None, []⟩ 1 emptyRamp).rainbow_indices.getD 0 0 = 0 ∧
    (∀ j, j + 1 < 2 + 1 →
      (rebuild_rainbow ⟨2, ColorMode.None, []⟩ 1 emptyRamp).rainbow_indices.getD j 0
        < (rebuild_rainbow ⟨2, ColorMode.None, []⟩ 1 emptyRamp).rainbow_indices.getD (j + 1) 0) ∧
    (∀ o ∈ (rebuild_rainbow ⟨2, ColorMode.None, []⟩ 1 emptyRamp).rainbow_indices,
      o < (rebuild_rainbow ⟨2, ColorMode.None, []⟩ 1 emptyRamp).rainbow.length) :=
  claim_C3_amended ⟨2, ColorMode.None, []⟩ 1 (by norm_num)

/-- Counterexample to C4 as stated: after a second rebuild (resize) with
`num_colors = 6`, new `screen_cols = 200`, the index does NOT have
`6 + 200 + 1 = 207` entries: the lambda appends to the old vectors instead
of discarding them, giving `(6+10) + (6+200) = 222` entries. -/
theorem claim_C4_counterexample :
    (rebuild_rainbow ⟨6, ColorMode.None, []⟩ 200
        (rebuild_rainbow ⟨6, ColorMode.None, []⟩ 10 emptyRamp)).rainbow_indices.length
      ≠ 6 + 200 + 1 := by
  rw [rebuild_indices_length, rebuild_indices_length]
  simp [emptyRamp]

/-! ### The render loop -/

theorem flag_or_one (a b : Nat) (ha : a < 4) (hb : b < 4) :
    ((a ||| b) &&& 1 = 0) ↔ (a &&& 1 = 0 ∧ b &&& 1 = 0) := by
  interval_cases a <;> interval_cases b <;> decide

theorem flag_or_two (a b : Nat) (ha : a < 4) (hb : b < 4) :
    ((a ||| b) &&& 2 = 0) ↔ (a &&& 2 = 0 ∧ b &&& 2 = 0) := by
  interval_cases a <;> interval_cases b <;> decide

theorem tickStep_sigint (cfg : Config) (st : LoopState) (inp : TickInput)
    (h : (st.pending ||| inp.delivered) &&& SignalState_Sigint ≠ 0) :
    tickStep cfg st inp = none := by
  simp [tickStep, h]

theorem tickStep_resize (cfg : Config) (st : LoopState) (inp : TickInput)
    (h1 : (st.pending ||| inp.delivered) &&& SignalState_Sigint = 0)
    (h2 : (st.pending ||| inp.delivered) &&& SignalState_Sigwinch ≠ 0) :
    tickStep cfg st inp = some
      (⟨0, inp.dims.1, inp.dims.2, rebuild_rainbow cfg inp.dims.1 st.ramp, st.i⟩,
       ⟨0, inp.dims.1, inp.dims.2, rebuild_rainbow cfg inp.dims.1 st.ramp, st.i + 1⟩,
       assemble_frame (rebuild_rainbow cfg inp.dims.1 st.ramp) cfg.num_colors
         inp.dims.1 inp.dims.2 st.i inp.stats) := by
  simp [tickStep, h1, h2]

theorem tickStep_plain (cfg : Config) (st : LoopState) (inp : TickInput)
    (h1 : (st.pending ||| inp.delivered) &&& SignalState_Sigint = 0)
    (h2 : (st.pending ||| inp.delivered) &&& SignalState_Sigwinch = 0) :
    tickStep cfg st inp = some
      (⟨0, st.screen_cols, st.screen_rows, st.ramp, st.i⟩,
       ⟨0, st.screen_cols, st.screen_rows, st.ramp, st.i + 1⟩,
       assemble_frame st.ramp cfg.num_colors st.screen_cols st.screen_rows st.i inp.stats) := by
  simp [tickStep, h1, h2]

theorem tickStep_inv (cfg : Config) (st : LoopState) (inp : TickInput)
    (stA st' : LoopState) (out : List Nat)
    (h : tickStep cfg st inp = some (stA, st', out)) :
    stA.pending = 0 ∧ stA.i = st.i ∧ st'.pending = 0 ∧ st'.i = st.i + 1 ∧
    st'.screen_cols = stA.screen_cols ∧ st'.screen_rows = stA.screen_rows ∧
    st'.ramp = stA.ramp ∧
    out = assemble_frame stA.ramp cfg.num_colors stA.screen_cols stA.screen_rows stA.i inp.stats ∧
    ((stA.screen_cols = inp.dims.1 ∧ stA.screen_rows = inp.dims.2 ∧
        stA.ramp = rebuild_rainbow cfg inp.dims.1 st.ramp) ∨
      (stA.screen_cols = st.screen_cols ∧ stA.screen_rows = st.screen_rows ∧
        stA.ramp = st.ramp)) := by
  by_cases h1 : (st.pending ||| inp.delivered) &&& SignalState_Sigint ≠ 0
  · rw [tickStep_sigint cfg st inp h1] at h
    exact absurd h (by simp)
  · rw [not_ne_iff] at h1
    by_cases h2 : (st.pending ||| inp.delivered) &&& SignalState_Sigwinch ≠ 0
    · rw [tickStep_resize cfg st inp h1 h2] at h
      simp only [Option.some.injEq, Prod.mk.injEq] at h
      obtain ⟨hA, hB, hC⟩ := h
      subst hA hB hC
      exact ⟨rfl, rfl, rfl, rfl, rfl, rfl, rfl, rfl, Or.inl ⟨rfl, rfl, rfl⟩⟩
    · rw [not_ne_iff] at h2
      rw [tickStep_plain cfg st inp h1 h2] at h
      simp only [Option.some.injEq, Prod.mk.injEq] at h
      obtain ⟨hA, hB, hC⟩ := h
      subst hA hB hC
      exact ⟨rfl, rfl, rfl, rfl, rfl, rfl, rfl, rfl, Or.inr ⟨rfl, rfl, rfl⟩⟩

theorem runLoop_cons (cfg : Config) (st : LoopState) (inp : TickInput) (rest : List TickInput) :
    runLoop cfg st (inp :: rest) = match tickStep cfg st inp with
      | none => [teardownBytes]
      | some (_, st', out) => out :: runLoop cfg st' rest := rfl

theorem loopStates_cons (cfg : Config) (st : LoopState) (inp : TickInput) (rest : List TickInput) :
    loopStates cfg st (inp :: rest) = match tickStep cfg st inp with
      | none => []
      | some (stA, st', _) => stA :: loopStates cfg st' rest := rfl

theorem assemble_frame_eq (ramp : Ramp) (num_colors screen_cols screen_rows i : Nat)
    (stats : List Nat) :
    assemble_frame ramp num_colors screen_cols screen_rows i stats
      = frameHead ++ (stats.take (min stats.length screen_cols)
          ++ (ramp_slice ramp ((i + min stats.length screen_cols) % num_colors)
                (screen_cols - min stats.length screen_cols)
          ++ (joinMap (fun y => ramp_slice ramp ((i + y * 2) % num_colors) screen_cols)
                (List.range' 1 (screen_rows - 1))
          ++ frameTail))) := by
  have harg : (i + min stats.length screen_cols) % num_colors + screen_cols
        - min stats.length screen_cols
      = (i + min stats.length screen_cols) % num_colors
        + (screen_cols - min stats.length screen_cols) := by
    have := Nat.min_le_right stats.length screen_cols
    omega
  simp only [assemble_frame]
  rw [harg, foldl_append_join (rowAppend ramp num_colors screen_cols i) (fun o y => rfl)]
  have hrow : joinMap (fun y => rowAppend ramp num_colors screen_cols i [] y)
        (List.range' 1 (screen_rows - 1))
      = joinMap (fun y => ramp_slice ramp ((i + y * 2) % num_colors) screen_cols)
        (List.range' 1 (screen_rows - 1)) :=
    joinMap_congr _ _ _ (fun y _ => rfl)
  rw [hrow]
  simp only [ramp_slice, List.append_assoc]

theorem frame_ne_teardown (ramp : Ramp) (num_colors screen_cols screen_rows i : Nat)
    (stats : List Nat) :
    assemble_frame ramp num_colors screen_cols screen_rows i stats ≠ teardownBytes := by
  rw [assemble_frame_eq]
  intro h
  have h7 : teardownBytes.get? 7 = some 104 := by
    rw [← h]
    rfl
  exact absurd h7 (by decide)

/-- C9: once an interrupt is delivered, the loop stops at the next tick
boundary — observing the flag before assembling a frame — and the fixed
teardown sequence (end synchronized update, show cursor, disable alternate
screen) is emitted exactly once, as the only output after the last frame:
after `pre.length` completed ticks the run is exactly the `pre.length`
frames followed by one `teardownBytes` write, and no frame equals the
teardown bytes. -/
theorem claim_C9 (cfg : Config) (pre : List TickInput) (inp : TickInput)
    (rest : List TickInput) (st : LoopState)
    (hp4 : st.pending < 4) (hps : st.pending &&& SignalState_Sigint = 0)
    (hpre4 : ∀ p ∈ pre, p.delivered < 4)
    (hpre : ∀ p ∈ pre, p.delivered &&& SignalState_Sigint = 0)
    (hi4 : inp.delivered < 4)
    (hint : inp.delivered &&& SignalState_Sigint ≠ 0) :
    ∃ frames, runLoop cfg st (pre ++ inp :: rest) = frames ++ [teardownBytes] ∧
      frames.length = pre.length ∧ teardownBytes ∉ frames := by
  induction pre generalizing st with
  | nil =>
    have hsig : (st.pending ||| inp.delivered) &&& SignalState_Sigint ≠ 0 := by
      intro h
      unfold SignalState_Sigint at h hint
      exact hint ((flag_or_one _ _ hp4 hi4).mp h).2
    refine ⟨[], ?_, rfl, by simp⟩
    rw [List.nil_append, runLoop_cons, tickStep_sigint cfg st inp hsig]
    simp
  | cons p pre ih =>
    have hp1 := hpre p (by simp)
    have hp41 := hpre4 p (by simp)
    have hsig : (st.pending ||| p.delivered) &&& SignalState_Sigint = 0 := by
      unfold SignalState_Sigint at hp1 hps ⊢
      exact (flag_or_one _ _ hp4 hp41).mpr ⟨hps, hp1⟩
    rcases hts : tickStep cfg st p with _ | ⟨stA, st', out⟩
    · exact absurd hts (by
        by_cases h2 : (st.pending ||| p.delivered) &&& SignalState_Sigwinch ≠ 0
        · rw [tickStep_resize cfg st p hsig h2]; simp
        · rw [not_ne_iff] at h2; rw [tickStep_plain cfg st p hsig h2]; simp)
    · have hinv := tickStep_inv cfg st p stA st' out hts
      obtain ⟨frames, hrun, hlen, hmem⟩ := ih st'
        (by rw [hinv.2.2.1]; norm_num)
        (by rw [hinv.2.2.1]; decide)
        (fun q hq => hpre4 q (by simp [hq]))
        (fun q hq => hpre q (by simp [hq]))
      refine ⟨out :: frames, ?_, by simp [hlen], ?_⟩
      · rw [List.cons_append, runLoop_cons, hts]
        simp [hrun]
      · intro hmem'
        rcases List.mem_cons.mp hmem' with h | h
        · exact frame_ne_teardown _ _ _ _ _ _ (by rw [← hinv.2.2.2.2.2.2.2.1, h])
        · exact hmem h

/-- Witness for C9: one-element input stream whose first tick already
carries the interrupt bit — the run is exactly one teardown write. -/
theorem claim_C9_witness :
    ∃ frames, runLoop ⟨1, ColorMode.None, []⟩ initialState
        ([] ++ (⟨1, (1, 1), []⟩ : TickInput) :: []) = frames ++ [teardownBytes] ∧
      frames.length = ([] : List TickInput).length ∧ teardownBytes ∉ frames :=
  claim_C9 ⟨1, ColorMode.None, []⟩ [] ⟨1, (1, 1), []⟩ [] initialState
    (by decide) (by decide) (by simp) (by simp) (by decide) (by decide)

theorem loopStates_getD_i (cfg : Config) :
    ∀ (inputs : List TickInput) (st : LoopState) (t : Nat),
      t < (loopStates cfg st inputs).length →
      ((loopStates cfg st inputs).getD t initialState).i = st.i + t := by
  intro inputs
  induction inputs with
  | nil =>
    intro st t ht
    simp [loopStates] at ht
  | cons inp rest ih =>
    intro st t ht
    rcases hts : tickStep cfg st inp with _ | ⟨stA, st', out⟩
    · rw [loopStates_cons, hts] at ht
      simp at ht
    · have hinv := tickStep_inv cfg st inp stA st' out hts
      rw [loopStates_cons, hts] at ht ⊢
      cases t with
      | zero =>
        simpa using hinv.2.1
      | succ t =>
        have hlen : t < (loopStates cfg st' rest).length := by simpa using ht
        have := ih st' t hlen
        simp only [List.getD_cons_succ]
        rw [this, hinv.2.2.2.1]
        omega

theorem loopStates_i (cfg : Config) (inputs : List TickInput) (st : LoopState) (t : Nat)
    (ht : t < (loopStates cfg st inputs).length) :
    ((loopStates cfg st inputs).get ⟨t, ht⟩).i = st.i + t := by
  rw [List.get_eq_getElem, ← List.getD_eq_getElem _ initialState ht]
  exact loopStates_getD_i cfg inputs st t ht

/-- C2: each frame is the fixed prefix (begin synchronized update, cursor
home, color reset), then the stats line truncated to at most `cols` bytes,
then a ramp slice at position `(i + stats_length) mod num_colors` of width
`cols - stats_length`, then for each row `y ∈ [1, rows)` a ramp slice at
position `(i + 2y) mod num_colors` of width `cols`, then the frame tail;
and the frame index `i` of the `t`-th tick of a run is `t` (the loop
increments it once per tick, starting at 0). -/
theorem claim_C2 :
    (∀ (ramp : Ramp) (num_colors screen_cols screen_rows i : Nat) (stats : List Nat),
      assemble_frame ramp num_colors screen_cols screen_rows i stats
        = frameHead ++ (stats.take (min stats.length screen_cols)
            ++ (ramp_slice ramp ((i + min stats.length screen_cols) % num_colors)
                  (screen_cols - min stats.length screen_cols)
            ++ (joinMap (fun y => ramp_slice ramp ((i + 2 * y) % num_colors) screen_cols)
                  (List.range' 1 (screen_rows - 1))
            ++ frameTail))) ∧
      (stats.take (min stats.length screen_cols)).length ≤ screen_cols) ∧
    (∀ (cfg : Config) (inputs : List TickInput) (t : Nat)
      (ht : t < (loopStates cfg initialState inputs).length),
      ((loopStates cfg initialState inputs).get ⟨t, ht⟩).i = t) := by
  constructor
  · intro ramp num_colors screen_cols screen_rows i stats
    constructor
    · rw [assemble_frame_eq]
      have : joinMap (fun y => ramp_slice ramp ((i + y * 2) % num_colors) screen_cols)
            (List.range' 1 (screen_rows - 1))
          = joinMap (fun y => ramp_slice ramp ((i + 2 * y) % num_colors) screen_cols)
            (List.range' 1 (screen_rows - 1)) :=
        joinMap_congr _ _ _ (fun y _ => by rw [Nat.mul_comm])
      rw [this]
    · simp [List.length_take]
  · intro cfg inputs t ht
    have := loopStates_i cfg inputs initialState t ht
    simpa [initialState] using this

/-- Witness for C2: the structural equation at a concrete one-row frame, and
the frame index of tick 0 of a concrete run. -/
theorem claim_C2_witness :
    (assemble_frame ⟨[65, 66], [0, 1]⟩ 2 1 1 0 [70]
        = frameHead ++ ([70].take (min [70].length 1)
            ++ (ramp_slice ⟨[65, 66], [0, 1]⟩ ((0 + min [70].length 1) % 2)
                  (1 - min [70].length 1)
            ++ (joinMap (fun y => ramp_slice ⟨[65, 66], [0, 1]⟩ ((0 + 2 * y) % 2) 1)
                  (List.range' 1 (1 - 1))
            ++ frameTail))) ∧
      ([70].take (min [70].length 1)).length ≤ 1) ∧
    ((loopStates ⟨1, ColorMode.None, []⟩ initialState [⟨0, (1, 1), [70]⟩]).get
        ⟨0, by decide⟩).i = 0 :=
  ⟨(claim_C2.1 ⟨[65, 66], [0, 1]⟩ 2 1 1 0 [70]),
    claim_C2.2 ⟨1, ColorMode.None, []⟩ [⟨0, (1, 1), [70]⟩] 0 (by decide)⟩

/-- C4 (amended): on a resize tick the dimensions are requeried and the ramp
is rebuilt — but the old RampBuffer/RampIndex are NOT discarded: the new
cells are appended, so after a resize to `cols = 200` the index length
grows by `num_colors + 200` (to `old_length + num_colors + 200`, not to
`num_colors + 200 + 1`), and the same tick's frame is already assembled
with 200-wide rows. -/
theorem claim_C4_amended (cfg : Config) (st : LoopState) (inp : TickInput) (rows : Nat)
    (hp4 : st.pending < 4) (hps : st.pending &&& SignalState_Sigint = 0)
    (hd : inp.delivered = SignalState_Sigwinch) (hdim : inp.dims = (200, rows)) :
    tickStep cfg st inp = some
      (⟨0, 200, rows, rebuild_rainbow cfg 200 st.ramp, st.i⟩,
       ⟨0, 200, rows, rebuild_rainbow cfg 200 st.ramp, st.i + 1⟩,
       assemble_frame (rebuild_rainbow cfg 200 st.ramp) cfg.num_colors 200 rows st.i inp.stats) ∧
    (rebuild_rainbow cfg 200 st.ramp).rainbow_indices.length
      = st.ramp.rainbow_indices.length + (cfg.num_colors + 200) := by
  have h1 : (st.pending ||| inp.delivered) &&& SignalState_Sigint = 0 := by
    rw [hd]
    unfold SignalState_Sigint SignalState_Sigwinch
    exact (flag_or_one st.pending 2 hp4 (by norm_num)).mpr ⟨hps, by decide⟩
  have h2 : (st.pending ||| inp.delivered) &&& SignalState_Sigwinch ≠ 0 := by
    rw [hd]
    unfold SignalState_Sigwinch
    intro h
    exact absurd ((flag_or_two st.pending 2 hp4 (by norm_num)).mp h).2 (by decide)
  refine ⟨?_, rebuild_indices_length cfg 200 st.ramp⟩
  have := tickStep_resize cfg st inp h1 h2
  rw [hdim] at this
  simpa using this

/-- Witness for C4 (amended): a resize to 200 columns from the initial
state. -/
theorem claim_C4_amended_witness :
    tickStep ⟨1, ColorMode.None, []⟩ initialState ⟨2, (200, 1), []⟩ = some
      (⟨0, 200, 1, rebuild_rainbow ⟨1, ColorMode.None, []⟩ 200 initialState.ramp, initialState.i⟩,
       ⟨0, 200, 1, rebuild_rainbow ⟨1, ColorMode.None, []⟩ 200 initialState.ramp,
         initialState.i + 1⟩,
       assemble_frame (rebuild_rainbow ⟨1, ColorMode.None, []⟩ 200 initialState.ramp)
         (1 : Nat) 200 1 initialState.i []) ∧
    (rebuild_rainbow ⟨1, ColorMode.None, []⟩ 200 initialState.ramp).rainbow_indices.length
      = initialState.ramp.rainbow_indices.length + (1 + 200) :=
  claim_C4_amended ⟨1, ColorMode.None, []⟩ initialState ⟨2, (200, 1), []⟩ 1
    (by decide) (by decide) rfl rfl

theorem rebuild_entries (cfg : Config) (screen_cols : Nat) (st : Ramp)
    (h : ∀ o ∈ st.rainbow_indices, o ≤ st.rainbow.length) :
    ∀ o ∈ (rebuild_rainbow cfg screen_cols st).rainbow_indices,
      o ≤ (rebuild_rainbow cfg screen_cols st).rainbow.length := by
  rw [rebuild_rainbow_def]
  intro o ho
  simp only [List.mem_append] at ho
  simp only [List.length_append]
  rcases ho with ho | ho
  · have := h o ho
    omega
  · obtain ⟨j, hj, rfl⟩ := offsetsFrom_mem cfg _ _ o ho
    have := cellsConcat_length_mono cfg (Nat.le_of_lt hj)
    omega

theorem loopStates_ok (cfg : Config) (_hnum : 1 ≤ cfg.num_colors) :
    ∀ (inputs : List TickInput) (st : LoopState),
      st.pending < 4 →
      (∀ o ∈ st.ramp.rainbow_indices, o ≤ st.ramp.rainbow.length) →
      (st.pending &&& SignalState_Sigwinch ≠ 0 ∨ RampOk cfg st) →
      (∀ p ∈ inputs, p.delivered < 4) →
      ∀ stA ∈ loopStates cfg st inputs, RampOk cfg stA := by
  intro inputs
  induction inputs with
  | nil =>
    intro st _ _ _ _ stA h
    simp [loopStates] at h
  | cons inp rest ih =>
    intro st hp4 hentries hdisj h4 stA hmem
    have hd4 := h4 inp (by simp)
    by_cases h1 : (st.pending ||| inp.delivered) &&& SignalState_Sigint ≠ 0
    · rw [loopStates_cons, tickStep_sigint cfg st inp h1] at hmem
      simp at hmem
    · rw [not_ne_iff] at h1
      by_cases h2 : (st.pending ||| inp.delivered) &&& SignalState_Sigwinch ≠ 0
      · rw [loopStates_cons, tickStep_resize cfg st inp h1 h2] at hmem
        have hentB : ∀ o ∈ (rebuild_rainbow cfg inp.dims.1 st.ramp).rainbow_indices,
            o ≤ (rebuild_rainbow cfg inp.dims.1 st.ramp).rainbow.length :=
          rebuild_entries cfg inp.dims.1 st.ramp hentries
        have hlen : cfg.num_colors + inp.dims.1
            ≤ (rebuild_rainbow cfg inp.dims.1 st.ramp).rainbow_indices.length := by
          rw [rebuild_indices_length]
          omega
        rcases List.mem_cons.mp hmem with rfl | hmem
        · exact ⟨hlen, hentB⟩
        · exact ih ⟨0, inp.dims.1, inp.dims.2, rebuild_rainbow cfg inp.dims.1 st.ramp, st.i + 1⟩
            (by norm_num) hentB (Or.inr ⟨hlen, hentB⟩)
            (fun p hp => h4 p (by simp [hp])) stA hmem
      · rw [not_ne_iff] at h2
        rw [loopStates_cons, tickStep_plain cfg st inp h1 h2] at hmem
        have hpb : st.pending &&& SignalState_Sigwinch = 0 := by
          unfold SignalState_Sigwinch at h2 ⊢
          exact ((flag_or_two _ _ hp4 hd4).mp h2).1
        have hOk : RampOk cfg st := hdisj.resolve_left (by simp [hpb])
        rcases List.mem_cons.mp hmem with rfl | hmem
        · exact ⟨hOk.1, hOk.2⟩
        · exact ih ⟨0, st.screen_cols, st.screen_rows, st.ramp, st.i + 1⟩
            (by norm_num) hOk.2 (Or.inr ⟨hOk.1, hOk.2⟩)
            (fun p hp => h4 p (by simp [hp])) stA hmem

theorem accessed_lt (num_colors screen_cols screen_rows i sl L : Nat)
    (hnum : 1 ≤ num_colors) (hsl : sl ≤ screen_cols) (hL : num_colors + screen_cols ≤ L) :
    ∀ a ∈ accessedIdx num_colors screen_cols screen_rows i sl, a < L := by
  intro a ha
  unfold accessedIdx at ha
  have h0 : 0 < num_colors := hnum
  simp only [List.cons_append, List.nil_append, List.mem_cons] at ha
  rcases ha with rfl | ha
  · have := Nat.mod_lt (i + sl) h0
    omega
  rcases ha with rfl | ha
  · have := Nat.mod_lt (i + sl) h0
    omega
  obtain ⟨y, _, hmem⟩ := joinMap_mem _ _ _ ha
  simp only [List.mem_cons, List.not_mem_nil, or_false] at hmem
  rcases hmem with rfl | rfl
  · have := Nat.mod_lt (i + y * 2) h0
    omega
  · have := Nat.mod_lt (i + y * 2) h0
    omega

/-- C10: the pending flag set starts with the resize bit set
(`signal_state{SignalState_Sigwinch}`), so the very first tick queries the
dimensions and rebuilds before any index or buffer access; consequently in
every state a frame is assembled in, every `rainbow_indices` position the
assembly reads (stats length clamped to `screen_cols`, row starts taken mod
`num_colors`) is strictly below the index length, the index holds at least
`num_colors + screen_cols` entries for the current `screen_cols`, and every
stored offset is at most the buffer length, so no read goes past the end of
the index or the buffer. -/
theorem claim_C10 :
    initialState.pending = SignalState_Sigwinch ∧
    ∀ (cfg : Config) (inputs : List TickInput), 1 ≤ cfg.num_colors →
      (∀ p ∈ inputs, p.delivered < 4) →
      ∀ stA ∈ loopStates cfg initialState inputs, ∀ stats : List Nat,
        (∀ a ∈ accessedIdx cfg.num_colors stA.screen_cols stA.screen_rows stA.i
            (min stats.length stA.screen_cols), a < stA.ramp.rainbow_indices.length) ∧
        cfg.num_colors + stA.screen_cols ≤ stA.ramp.rainbow_indices.length ∧
        (∀ o ∈ stA.ramp.rainbow_indices, o ≤ stA.ramp.rainbow.length) := by
  refine ⟨rfl, ?_⟩
  intro cfg inputs hnum h4 stA hmem stats
  have hOk : RampOk cfg stA :=
    loopStates_ok cfg hnum inputs initialState (by decide)
      (by simp [initialState, emptyRamp]) (Or.inl (by decide)) h4 stA hmem
  refine ⟨?_, hOk.1, hOk.2⟩
  exact accessed_lt cfg.num_colors stA.screen_cols stA.screen_rows stA.i _
    stA.ramp.rainbow_indices.length hnum (Nat.min_le_right _ _) hOk.1

/-- Witness for C10: a two-tick run (rebuild on the first tick from the
preset resize bit, plain second tick). -/
theorem claim_C10_witness :
    ∀ stA ∈ loopStates ⟨1, ColorMode.None, []⟩ initialState
        [⟨0, (1, 1), [70]⟩, ⟨0, (0, 0), []⟩],
      ∀ stats : List Nat,
        (∀ a ∈ accessedIdx 1 stA.screen_cols stA.screen_rows stA.i
            (min stats.length stA.screen_cols), a < stA.ramp.rainbow_indices.length) ∧
        1 + stA.screen_cols ≤ stA.ramp.rainbow_indices.length ∧
        (∀ o ∈ stA.ramp.rainbow_indices, o ≤ stA.ramp.rainbow.length) :=
  claim_C10.2 ⟨1, ColorMode.None, []⟩ [⟨0, (1, 1), [70]⟩, ⟨0, (0, 0), []⟩]
    (by norm_num) (by decide)

/-! ### Argument parsing and the throughput sampler -/

/-- Counterexample to C6 as stated: the command line
`rainbowbench -fg -ch=41 100` matches the documented interface
`[-fg|-bg|-ng] [-ch=<hex>] [<num_colors>]` but has `argc = 4`, and the
program rejects it with the usage message and exit code 1 (main.cpp 78-81
accepts only `argc ≤ 3`). -/
theorem claim_C6_counterexample :
    parse_args [['-', 'f', 'g'], ['-', 'c', 'h', '=', '4', '1'], ['1', '0', '0']]
      = Except.error () := rfl

/-- C6 (amended): every command line with at most two user arguments is
accepted and starts the benchmark (argument parsing never fails for
`argc ≤ 3`); any command line with three or more user arguments — including
one supplying a mode flag, a `-ch` override and a `num_colors` argument
simultaneously — produces the usage message on standard error and exit
code 1. The argument count is the only thing that triggers the usage
message. -/
theorem claim_C6_amended : ∀ args : List (List Char),
    (args.length ≤ 2 → (parse_args args).isOk = true) ∧
    (2 < args.length → parse_args args = Except.error ()) := by
  intro args
  constructor
  · intro h
    unfold parse_args
    rw [if_neg (by omega)]
    rfl
  · intro h
    unfold parse_args
    rw [if_pos h]

/-- Witness for C6 (amended): `-fg 100` is accepted. -/
theorem claim_C6_witness :
    (parse_args [['-', 'f', 'g'], ['1', '0', '0']]).isOk = true :=
  (claim_C6_amended [['-', 'f', 'g'], ['1', '0', '0']]).1 (by decide)

/-- Counterexample to C7 as stated: a malformed (non-numeric) `num_colors`
argument `abc` is NOT rejected — `strtoull` yields 0, which is clamped to
1 and the benchmark starts; and an out-of-range `-ch` code point
(`0x110001 > 0x110000`) is silently ignored, leaving the default glyph.
No error is reported and the process does not exit. -/
theorem claim_C7_counterexample :
    parse_args [['a', 'b', 'c']] = Except.ok ⟨1, ColorMode.All, []⟩ ∧
    parse_args [['-', 'c', 'h', '=', '1', '1', '0', '0', '0', '1']]
      = Except.ok ⟨1530, ColorMode.All, []⟩ := by
  constructor <;> rfl

/-- C7 (amended): a malformed `num_colors` argument is parsed leniently —
any non-flag argument yields `clamp(strtoull(arg), 1, 1530)` with no error
— and a `-ch` code point above `0x110000` is silently ignored (the
override stays unset); argument-value errors never terminate the program. -/
theorem claim_C7_amended : ∀ s : List Char,
    (¬ isFlagArg s →
      parse_args [s] = Except.ok ⟨min (max (decVal s) 1) 1530, ColorMode.All, []⟩) ∧
    (chArgP s = true → 0x110000 < hexVal (s.drop 4) →
      parse_args [s] = Except.ok ⟨1530, ColorMode.All, []⟩) := by
  intro s
  constructor
  · intro h
    unfold isFlagArg at h
    push_neg at h
    obtain ⟨h1, h2, h3, h4⟩ := h
    unfold parse_args
    rw [if_neg (by norm_num)]
    simp only [List.foldl]
    unfold parse_arg
    rw [if_neg h1, if_neg h2, if_neg h3, if_neg (by simpa using h4)]
  · intro hch hcp
    have h1 : s ≠ ['-', 'f', 'g'] := by rintro rfl; simp [chArgP] at hch
    have h2 : s ≠ ['-', 'b', 'g'] := by rintro rfl; simp [chArgP] at hch
    have h3 : s ≠ ['-', 'n', 'g'] := by rintro rfl; simp [chArgP] at hch
    unfold parse_args
    rw [if_neg (by norm_num)]
    simp only [List.foldl]
    unfold parse_arg
    rw [if_neg h1, if_neg h2, if_neg h3, if_pos hch]
    unfold chOverride
    rw [if_neg (by omega), if_neg (by omega), if_neg (by omega), if_neg (by omega)]

/-- Witness for C7 (amended): the non-flag argument `abc`. -/
theorem claim_C7_witness :
    parse_args [['a', 'b', 'c']]
      = Except.ok ⟨min (max (decVal ['a', 'b', 'c']) 1) 1530, ColorMode.All, []⟩ :=
  (claim_C7_amended ['a', 'b', 'c']).1 (by decide)

/-- C8: on every tick, if at least one second elapsed since the reference
timestamp, the sampler publishes `fps = frame / elapsed_seconds` and
`rate = written / elapsed_seconds / 10^6` (decimal MB/s), resets both
accumulators to zero and sets the reference to `now`; otherwise the whole
sampler state is left unchanged. In particular 1,000,000 bytes accumulated
over an exactly-1.0-second window report a rate of exactly 1 MB/s. -/
theorem claim_C8 : ∀ (st : SamplerState) (now : Nat),
    (1000000000 ≤ now - st.reference →
      sample_tick st now
        = ⟨(st.written : ℚ) / (((now - st.reference : Nat) : ℚ) / 1000000000) / 1000000,
            (st.frame : ℚ) / (((now - st.reference : Nat) : ℚ) / 1000000000),
            0, 0, now⟩) ∧
    (now - st.reference < 1000000000 → sample_tick st now = st) ∧
    (st.written = 1000000 → now - st.reference = 1000000000 →
      (sample_tick st now).mbps = 1) := by
  intro st now
  refine ⟨?_, ?_, ?_⟩
  · intro h
    simp [sample_tick, h]
  · intro h
    unfold sample_tick
    rw [if_neg (by omega)]
  · intro hw hd
    simp only [sample_tick, hd, hw]
    norm_num

/-- Witness for C8: 1,000,000 bytes over exactly one second. -/
theorem claim_C8_witness :
    (sample_tick ⟨0, 0, 1000000, 7, 0⟩ 1000000000).mbps = 1 :=
  (claim_C8 ⟨0, 0, 1000000, 7, 0⟩ 1000000000).2.2 rfl (by decide)

end RB
